import Mathlib

/-!
Shallow embedding of the c3media client library (a Python wrapper over the
media.ccc.de HTTP API) and proofs about its derivation logic.

Modelling conventions:
* JSON records (TypedDicts in `models.py`) become Lean structures.  `Event` is
  declared `total=False` in the source, so every field may be absent; only the
  absence of `recordings` is semantically load-bearing (it drives the lazy
  hydration rule), so that field is an `Option` while scalar fields that the
  client always reads are kept plain.
* Network I/O is modelled by explicit oracles: an `ApiEnv` mapping request
  keys to decoded responses, and `Except HttpErr`-valued oracles for the
  fallible subtitle HEAD/GET calls (an `HttpErr` covers both a transport
  failure and a non-success status surfaced by raising).
* Functions whose observable behaviour includes *how many* requests they
  issue are instrumented to return the request trace alongside the result:
  `get_event_recordings` returns the number of extra event fetches it issued,
  and `get_recording_subtitles` returns the list of probed URLs.
-/

/-- Embeds `Recording` from `models.py`: one encoded media asset. -/
structure Recording where
  size : Nat
  length : Nat
  mime_type : String
  language : String
  filename : String
  state : String
  folder : String
  high_quality : Bool
  width : Nat
  height : Nat
  updated_at : String
  recording_url : String
  url : String
  event_url : String
  conference_url : String
deriving DecidableEq

/-- Embeds `Event` from `models.py` (TypedDict, `total=False`): list-view
payloads may omit `recordings`, which the client hydrates lazily. -/
structure Event where
  guid : String
  title : String
  subtitle : Option String
  slug : String
  link : String
  description : String
  original_language : String
  persons : List String
  tags : List String
  view_count : Nat
  promoted : Bool
  date : String
  release_date : String
  updated_at : String
  length : Nat
  duration : Nat
  url : String
  conference_title : String
  conference_url : String
  recordings : Option (List Recording)
deriving DecidableEq

/-- Embeds `Conference` from `models.py`. -/
structure Conference where
  acronym : String
  aspect_ratio : String
  updated_at : String
  title : String
  schedule_url : String
  slug : String
  event_last_released_at : String
  link : String
  description : String
  webgen_location : String
  logo_url : String
  images_url : String
  recordings_url : String
  url : String
  events : List Event
deriving DecidableEq

/-- Embeds `Subtitle` from `models.py`: synthesized locally, `content` is
lazily fetched. -/
structure Subtitle where
  language : String
  url : String
  content : Option String
deriving DecidableEq

/-- A failed HTTP call: a transport error, or a non-success status turned
into an exception by `raise_for_status`. -/
structure HttpErr where
  msg : String
deriving DecidableEq

/-- Oracle for the remote API: decoded responses of the primitive GET
endpoints that the claims exercise. -/
structure ApiEnv where
  /-- Response of `GET events/{guid}` (full detail, used by hydration). -/
  eventByGuid : String → Event
  /-- Decoded `conferences` collection returned by `get_conferences`. -/
  conferences : List Conference
  /-- The `events` collection embedded in `GET conferences/{acronym}`,
  as returned by `get_conference_events`. -/
  conferenceEvents : String → List Event

/-- Embeds `COMMON_LANGUAGES` from `constants.py`: the three active
language-code keys, in dict insertion order, with display names. -/
def COMMON_LANGUAGES : List (String × String) :=
  [("eng", "English"), ("deu", "German"), ("eng-deu", "English-German")]

/-- `COMMON_LANGUAGES.keys()` in dict insertion order. -/
def commonLanguageKeys : List String := COMMON_LANGUAGES.map (fun kv => kv.1)

/-- The fixed pattern segment of the recording-id regex
`/recordings/(\d+)$` from `utils.py`. -/
def recSegment : List Char := "/recordings/".data

/-- The maximal run of digits at the end of a character list: what the
greedy, end-anchored `(\d+)$` group captures. -/
def trailingDigits (cs : List Char) : List Char :=
  (cs.reverse.takeWhile Char.isDigit).reverse

/-- `xs` ends with `pat` (list-level). -/
def listEndsWith (xs pat : List Char) : Bool :=
  decide (xs.drop (xs.length - pat.length) = pat)

/-- Python `str.lower()`, modelled as a per-character lowercase map (the
claims only exercise ASCII). -/
def strLower (s : String) : String := String.mk (s.data.map Char.toLower)

/-- Python `str.startswith(pre)`. -/
def strStartsWith (s pre : String) : Bool := pre.data.isPrefixOf s.data

/-- Worker for Python `str.replace`: scan left to right; `skip` counts
characters of an already-matched occurrence still to consume (the
replacement text itself is never rescanned, as in Python). -/
def replaceAux (pat repl : List Char) : Nat → List Char → List Char
  | _, [] => []
  | skip+1, _ :: cs => replaceAux pat repl skip cs
  | 0, c :: cs =>
    if pat ≠ [] ∧ pat.isPrefixOf (c :: cs) then
      repl ++ replaceAux pat repl (pat.length - 1) cs
    else c :: replaceAux pat repl 0 cs

/-- Python `str.replace(pat, repl)` for a non-empty pattern: replace every
non-overlapping occurrence, left to right. -/
def replaceL (pat repl cs : List Char) : List Char := replaceAux pat repl 0 cs

/-- Worker for Python `str.split(sep)` with a one-character separator. -/
def splitOnCharAux (sep : Char) : List Char → List Char → List (List Char)
  | [], acc => [acc.reverse]
  | c :: cs, acc =>
    if c = sep then acc.reverse :: splitOnCharAux sep cs []
    else splitOnCharAux sep cs (c :: acc)

/-- Python `str.split(sep)` with a one-character separator: always a
non-empty list of (possibly empty) fields. -/
def splitOnChar (sep : Char) (cs : List Char) : List (List Char) :=
  splitOnCharAux sep cs []

/-- The position Python's `$` anchor targets (without `re.MULTILINE`): the
end of the string, or just before a single trailing newline.  Since a
newline is not a digit, `(\d+)$` can only succeed at the stripped position
when the string ends in `'\n'`, so dropping one final newline captures the
anchor exactly. -/
def dollarTarget (cs : List Char) : List Char :=
  if cs.getLast? = some '\n' then cs.dropLast else cs

/-- The pattern `/recordings/(\d+)` matched against the end of the
(anchor-adjusted) character list: succeeds exactly when the list is some
prefix followed by `/recordings/` followed by a non-empty digit run
reaching the end (`/recordings/` contains a non-digit, so the run is the
maximal trailing one and the match position is unique); yields the captured
digit run. -/
def matchDigitsAtEnd (cs : List Char) : Option (List Char) :=
  let ds := trailingDigits cs
  let rest := cs.take (cs.length - ds.length)
  if ds.isEmpty then none
  else if listEndsWith rest recSegment then some ds else none

/-- Embeds `extract_recording_id` from `utils.py`:
`re.search(r"/recordings/(\d+)$", url)`, with `$` matching at the end of
the string or just before one final newline (`dollarTarget`).  Python's
`\d` matches any Unicode decimal digit; as with `str.lower` (`strLower`),
the embedding models the ASCII fragment via `Char.isDigit`, which agrees
with the code on every ASCII input. -/
def extract_recording_id (recording_url : String) : Option String :=
  (matchDigitsAtEnd (dollarTarget recording_url.data)).map
    (fun ds => String.mk ds)

/-- Truthiness of `event.get("recordings")` in Python: a present, non-empty
list is truthy; an absent key, a `None` value and an empty list are falsy. -/
def recordingsTruthy : Option (List Recording) → Bool
  | some rs => !rs.isEmpty
  | none => false

/-- Embeds `CCCMediaClient.get_event_recordings`, instrumented with the
number of additional `get_event` fetches issued (second component).
Mirrors the source: `if event.get("recordings"): return ... or []` else
fetch the full event and return `full_event.get("recordings") or []`. -/
def get_event_recordings (env : ApiEnv) (event : Event) : List Recording × Nat :=
  if recordingsTruthy event.recordings then
    (event.recordings.getD [], 0)
  else
    (((env.eventByGuid event.guid).recordings).getD [], 1)

/-- Embeds `get_event_recordings_by_language`: exact match on
`recording["language"]` after hydration. -/
def get_event_recordings_by_language (env : ApiEnv) (event : Event)
    (language : String) : List Recording :=
  (get_event_recordings env event).1.filter (fun r => r.language == language)

/-- Embeds `get_event_recordings_by_format`: exact match on
`recording["mime_type"]` after hydration. -/
def get_event_recordings_by_format (env : ApiEnv) (event : Event)
    (mime_type : String) : List Recording :=
  (get_event_recordings env event).1.filter (fun r => r.mime_type == mime_type)

/-- Python's `sorted(recordings, key=lambda x: x["size"], reverse=True)`:
a stable sort, descending by `size` (ties keep original order). -/
def sortBySizeDesc (recordings : List Recording) : List Recording :=
  recordings.mergeSort (fun a b => b.size ≤ a.size)

/-- Embeds `get_event_best_recording` (source default `mime_type` is
`"video/mp4"`): format-filter, then stable-sort by size descending and take
element 0; `None` when the filtered list is empty. -/
def get_event_best_recording (env : ApiEnv) (event : Event)
    (mime_type : String) : Option Recording :=
  let recordings := get_event_recordings_by_format env event mime_type
  if recordings.isEmpty then none
  else (sortBySizeDesc recordings).head?

/-- The `audio_recordings` intermediate of `get_event_audio_recording`:
language-filtered recordings whose mime type starts with `audio/`. -/
def audioCandidates (env : ApiEnv) (event : Event) (language : String) :
    List Recording :=
  (get_event_recordings_by_language env event language).filter
    (fun r => strStartsWith r.mime_type "audio/")

/-- Embeds `get_event_audio_recording` (source default `language` is
`"eng"`): language-filter, keep `audio/`-prefixed mime types, prefer the
first exact `audio/opus`, else the first audio candidate; `None` if none. -/
def get_event_audio_recording (env : ApiEnv) (event : Event)
    (language : String) : Option Recording :=
  let audio_recordings := audioCandidates env event language
  if audio_recordings.isEmpty then none
  else
    match audio_recordings.find? (fun r => r.mime_type == "audio/opus") with
    | some opus_recording => some opus_recording
    | none => audio_recordings.head?

/-- Embeds `get_conference_by_acronym`: linear scan over the fetched
`get_conferences()` list, comparing lower-cased acronyms, first hit wins. -/
def get_conference_by_acronym (env : ApiEnv) (acronym : String) : Option Conference :=
  env.conferences.find? (fun conference => strLower conference.acronym == strLower acronym)

/-- The `ImportError` raised by `get_events_by_fuzzy_title` when the
`fuzzywuzzy` package cannot be imported. -/
structure ImportErr where
  msg : String
deriving DecidableEq

/-- The exact message of that `ImportError` in `client.py`. -/
def fuzzywuzzyMissingMsg : String :=
  "The fuzzywuzzy package is required for fuzzy title matching. Please install it with: pip install fuzzywuzzy python-Levenshtein"

/-- Embeds `get_events_by_fuzzy_title` (source default `threshold` is 70).
The optional external capability `fuzz.ratio` is an oracle: `none` models an
unavailable `fuzzywuzzy` import, which raises the labelled `ImportError`
before anything else; otherwise events of the conference are kept when
`ratio(search_title.lower(), title.lower()) >= threshold`. -/
def get_events_by_fuzzy_title (env : ApiEnv) (fuzzRatio : Option (String → String → Nat))
    (conference : Conference) (search_title : String) (threshold : Nat) :
    Except ImportErr (List Event) :=
  match fuzzRatio with
  | none => Except.error ⟨fuzzywuzzyMissingMsg⟩
  | some ratio =>
    let events := env.conferenceEvents conference.acronym
    Except.ok (events.filter
      (fun event => threshold ≤ ratio (strLower search_title) (strLower event.title)))

/-- Embeds `get_subtitle_content`: an empty (falsy) URL yields `None`
without any fetch; otherwise `session.get` + `raise_for_status` + `.text`,
modelled by the `httpGet` oracle whose `error` covers transport failures
and non-success statuses; such an error PROPAGATES to the caller. -/
def get_subtitle_content (httpGet : String → Except HttpErr String)
    (subtitle : Subtitle) : Except HttpErr (Option String) :=
  if subtitle.url = "" then Except.ok none
  else
    match httpGet subtitle.url with
    | Except.ok body => Except.ok (some body)
    | Except.error e => Except.error e

/-- The base-URL rewriting of `get_recording_subtitles`: strip the storage
folder segment, rewrite the CDN host to the static host, and rewrite
`/congress/` to `/media/congress/` (Python `str.replace` replaces all
occurrences, as does `String.replace`). -/
def subtitleBaseUrl (recording : Recording) : String :=
  String.mk (replaceL "/congress/".data "/media/congress/".data
    (replaceL "cdn.media.ccc.de".data "static.media.ccc.de".data
      (replaceL ("/" ++ recording.folder ++ "/").data "/".data
        recording.recording_url.data)))

/-- `recording["event_url"].split("/")[-1]` (Python `split` never yields an
empty list, so `[-1]` is total here). -/
def eventGuidOf (recording : Recording) : String :=
  String.mk ((splitOnChar '/' recording.event_url.data).getLastD [])

/-- Python `s.rsplit("/", 1)[0]`: everything before the last slash, or the
whole string when it has no slash. -/
def rsplitSlashHead (s : String) : String :=
  let parts := splitOnChar '/' s.data
  if parts.length ≤ 1 then s
  else String.mk (List.intercalate "/".data parts.dropLast)

/-- The candidate `(lang, url)` pairs probed by `get_recording_subtitles`,
in loop order: `COMMON_LANGUAGES` key order, `srt` before `vtt`, with
`url = f"{base_url.rsplit('/', 1)[0]}/{event_guid}-{lang}.{ext}"`. -/
def subtitleCandidates (recording : Recording) : List (String × String) :=
  commonLanguageKeys.flatMap (fun lang =>
    ["srt", "vtt"].map (fun ext =>
      (lang, rsplitSlashHead (subtitleBaseUrl recording) ++ "/" ++
        eventGuidOf recording ++ "-" ++ lang ++ "." ++ ext)))

/-- The probing loop body of `get_recording_subtitles`: HEAD each candidate
URL in order; a 200 response appends an absent-content `Subtitle`; any other
status, or a raised `RequestException` (the oracle's `error`), just moves on
to the next candidate.  Returns the collected subtitles and the trace of
probed URLs. -/
def probeStep (rest : List Subtitle × List String) (c : String × String) :
    Except HttpErr Nat → List Subtitle × List String
  | Except.ok code =>
    if code = 200 then (⟨c.1, c.2, none⟩ :: rest.1, c.2 :: rest.2)
    else (rest.1, c.2 :: rest.2)
  | Except.error _ => (rest.1, c.2 :: rest.2)

/-- The recursion of the probing loop over the remaining candidates. -/
def probeLoop (headReq : String → Except HttpErr Nat) :
    List (String × String) → List Subtitle × List String
  | [] => ([], [])
  | c :: cs => probeStep (probeLoop headReq cs) c (headReq c.2)

/-- Embeds `get_recording_subtitles`, instrumented with the list of probed
URLs (second component): an empty `recording_url` short-circuits to `[]`
before building any candidate; otherwise every language/extension candidate
is HEAD-probed in order. -/
def get_recording_subtitles (headReq : String → Except HttpErr Nat)
    (recording : Recording) : List Subtitle × List String :=
  if recording.recording_url = "" then ([], [])
  else probeLoop headReq (subtitleCandidates recording)

/-- String `s` ends with `t`. -/
def sEndsWith (s t : String) : Prop := ∃ a : List Char, s.data = a ++ t.data

/-- `r` has maximal `size` among `recordings`. -/
def isMaxSizeIn (recordings : List Recording) (r : Recording) : Bool :=
  recordings.all (fun r2 => r2.size ≤ r.size)

/-- Modelled from the spec words for C3: the first recording, in original
list order, whose `size` is maximal; compared below against the
sort-then-index computation the source performs. -/
def firstMaxBySize (recordings : List Recording) : Option Recording :=
  recordings.find? (isMaxSizeIn recordings)

/-- Fixture: a recording with the given size, mime type, language and URLs,
with neutral values for the remaining fields. -/
def mkRec (size : Nat) (mime_type language recording_url url event_url : String) :
    Recording :=
  { size := size, length := 42, mime_type := mime_type, language := language,
    filename := "talk.mp4", state := "downloaded", folder := "h264-hd",
    high_quality := true, width := 1920, height := 1080, updated_at := "",
    recording_url := recording_url, url := url, event_url := event_url,
    conference_url := "" }

/-- Fixture: an event with the given guid, title and recordings field. -/
def mkEvent (guid title : String) (recordings : Option (List Recording)) : Event :=
  { guid := guid, title := title, subtitle := none, slug := "", link := "",
    description := "", original_language := "eng", persons := [], tags := [],
    view_count := 0, promoted := false, date := "", release_date := "",
    updated_at := "", length := 0, duration := 0, url := "",
    conference_title := "", conference_url := "", recordings := recordings }

/-- Fixture: a conference with the given acronym. -/
def mkConf (acronym : String) : Conference :=
  { acronym := acronym, aspect_ratio := "16:9", updated_at := "", title := "",
    schedule_url := "", slug := "", event_last_released_at := "", link := "",
    description := "", webgen_location := "", logo_url := "", images_url := "",
    recordings_url := "", url := "", events := [] }

/-- Fixture: an environment whose event-detail endpoint always answers with
the given hydrated recordings, and with fixed conference data. -/
def sampleEnv (hyd : List Recording) (confs : List Conference) (evs : List Event) :
    ApiEnv :=
  { eventByGuid := fun _ => mkEvent "full" "Full detail" (some hyd),
    conferences := confs,
    conferenceEvents := fun _ => evs }

/-- Fixture: a GET oracle that always fails with a transport error. -/
def failingGet : String → Except HttpErr String :=
  fun _ => Except.error ⟨"connection reset"⟩

/-- Fixture: a subtitle with a non-empty URL. -/
def subC5 : Subtitle :=
  ⟨"eng", "https://static.media.ccc.de/media/congress/2024/g-eng.srt", none⟩

/-- Fixture for C6/C7/C10: a recording with short URLs so the derived
candidate URLs are predictable: base `a`, event guid `G`. -/
def recC6 : Recording := mkRec 1 "video/mp4" "eng" "a/x.mp4" "u" "e/G"

/-- Fixture: HEAD oracle that raises a transport error on the `deu`/srt
candidate and answers 200 elsewhere. -/
def head1C6 : String → Except HttpErr Nat :=
  fun u => if u = "a/G-deu.srt" then Except.error ⟨"timeout"⟩ else Except.ok 200

/-- Fixture: HEAD oracle that answers 404 on the `deu`/srt candidate and
200 elsewhere. -/
def head2C6 : String → Except HttpErr Nat :=
  fun u => if u = "a/G-deu.srt" then Except.ok 404 else Except.ok 200

/-- Fixture: a deterministic similarity-scoring stub for C8. -/
def ratioStub : String → String → Nat :=
  fun _ b => if b = "hello world!" then 85 else 10

/-- Fixture events for C8. -/
def evHello : Event := mkEvent "g-hello" "Hello World!" none

/-- Fixture events for C8. -/
def evOther : Event := mkEvent "g-other" "Completely Different" none

/-- C1: `get_event_recordings` returns the embedded recordings with zero
additional fetches when they are present and non-empty; when the field is
absent or an empty list it issues exactly one `get_event(guid)` fetch and
returns that event's recordings, or `[]` if they are still absent. -/
theorem get_event_recordings_spec (env : ApiEnv) (event : Event) :
    (∀ rs : List Recording, event.recordings = some rs → rs ≠ [] →
      get_event_recordings env event = (rs, 0)) ∧
    ((event.recordings = none ∨ event.recordings = some []) →
      get_event_recordings env event =
        (((env.eventByGuid event.guid).recordings).getD [], 1)) := by
  constructor
  · intro rs hsome hne
    simp [get_event_recordings, recordingsTruthy, hsome, hne]
  · intro h
    rcases h with h | h <;> simp [get_event_recordings, recordingsTruthy, h]

/-- C1 witness: a partial event (absent recordings) is hydrated by one
fetch; an event with one embedded recording is returned with zero fetches. -/
theorem get_event_recordings_spec_witness :
    get_event_recordings (sampleEnv [mkRec 5 "video/mp4" "eng" "r" "u" "e"] [] [])
        (mkEvent "g1" "t1" none) =
      ([mkRec 5 "video/mp4" "eng" "r" "u" "e"], 1) ∧
    get_event_recordings (sampleEnv [] [] [])
        (mkEvent "g2" "t2" (some [mkRec 7 "video/mp4" "eng" "r" "u" "e"])) =
      ([mkRec 7 "video/mp4" "eng" "r" "u" "e"], 0) := by
  constructor
  · have h := (get_event_recordings_spec
      (sampleEnv [mkRec 5 "video/mp4" "eng" "r" "u" "e"] [] [])
      (mkEvent "g1" "t1" none)).2 (Or.inl rfl)
    simpa using h
  · exact (get_event_recordings_spec (sampleEnv [] [] [])
      (mkEvent "g2" "t2" (some [mkRec 7 "video/mp4" "eng" "r" "u" "e"]))).1
      [mkRec 7 "video/mp4" "eng" "r" "u" "e"] rfl (by simp)

/-- C5 counterexample: the claim says a failed fetch inside
`get_subtitle_content` is swallowed and yields an absent result; on a
subtitle with a non-empty URL and a failing transport, the function
propagates the failure and does not return the absent result. -/
theorem get_subtitle_content_counterexample :
    get_subtitle_content failingGet subC5 = Except.error ⟨"connection reset"⟩ ∧
    get_subtitle_content failingGet subC5 ≠ Except.ok none := by
  refine ⟨rfl, fun h => ?_⟩
  rw [show get_subtitle_content failingGet subC5 =
      Except.error ⟨"connection reset"⟩ from rfl] at h
  exact Except.noConfusion h

/-- C5 amended: `get_subtitle_content` yields an absent result (with no
fetch) only for an empty URL; otherwise a successful fetch returns the body
and a transport failure or non-success status PROPAGATES to the caller as a
request failure rather than being swallowed. -/
theorem get_subtitle_content_spec (httpGet : String → Except HttpErr String)
    (subtitle : Subtitle) :
    (subtitle.url = "" → get_subtitle_content httpGet subtitle = Except.ok none) ∧
    (∀ body, subtitle.url ≠ "" → httpGet subtitle.url = Except.ok body →
      get_subtitle_content httpGet subtitle = Except.ok (some body)) ∧
    (∀ e, subtitle.url ≠ "" → httpGet subtitle.url = Except.error e →
      get_subtitle_content httpGet subtitle = Except.error e) := by
  refine ⟨fun h => ?_, fun body hne hok => ?_, fun e hne herr => ?_⟩
  · simp [get_subtitle_content, h]
  · simp [get_subtitle_content, hne, hok]
  · simp [get_subtitle_content, hne, herr]

/-- C5 witness: the three behaviours at concrete inputs. -/
theorem get_subtitle_content_spec_witness :
    get_subtitle_content failingGet ⟨"eng", "", none⟩ = Except.ok none ∧
    get_subtitle_content (fun _ => Except.ok "WEBVTT") subC5 =
      Except.ok (some "WEBVTT") ∧
    get_subtitle_content failingGet subC5 = Except.error ⟨"connection reset"⟩ := by
  refine ⟨(get_subtitle_content_spec failingGet ⟨"eng", "", none⟩).1 rfl,
    (get_subtitle_content_spec (fun _ => Except.ok "WEBVTT") subC5).2.1
      "WEBVTT" (by decide) rfl,
    (get_subtitle_content_spec failingGet subC5).2.2
      ⟨"connection reset"⟩ (by decide) rfl⟩

/-- C7: an empty `recording_url` short-circuits `get_recording_subtitles`
to the empty list with zero HEAD probes issued. -/
theorem get_recording_subtitles_empty_url (headReq : String → Except HttpErr Nat)
    (recording : Recording) (h : recording.recording_url = "") :
    get_recording_subtitles headReq recording = ([], []) := by
  simp [get_recording_subtitles, h]

/-- C7 witness: a recording with an empty `recording_url`, probed by an
oracle that would answer 200 everywhere, still yields no subtitles and an
empty probe trace. -/
theorem get_recording_subtitles_empty_url_witness :
    get_recording_subtitles (fun _ => Except.ok 200)
      (mkRec 1 "video/mp4" "eng" "" "u" "e/G") = ([], []) :=
  get_recording_subtitles_empty_url (fun _ => Except.ok 200)
    (mkRec 1 "video/mp4" "eng" "" "u" "e/G") rfl

/-- `find?` returns the marked element of a split whose left part has no
hit. -/
theorem find?_first_of_split {α} (p : α → Bool) (l₁ l₂ : List α) (c : α)
    (h1 : ∀ x ∈ l₁, ¬ p x) (hc : p c) :
    (l₁ ++ c :: l₂).find? p = some c := by
  induction l₁ with
  | nil => simp [hc]
  | cons a l ih =>
    rw [List.cons_append, List.find?_cons_of_neg _ (h1 a (by simp))]
    exact ih (fun x hx => h1 x (by simp [hx]))

/-- C9: `get_conference_by_acronym` is a case-insensitive linear scan over
the fetched conferences: it returns the first conference whose lower-cased
acronym equals the lower-cased query (so query `38C3` matches stored
`38c3`), and absent exactly when no conference matches. -/
theorem get_conference_by_acronym_spec (env : ApiEnv) (acronym : String) :
    (get_conference_by_acronym env acronym = none ↔
      ∀ c ∈ env.conferences, strLower c.acronym ≠ strLower acronym) ∧
    (∀ c, get_conference_by_acronym env acronym = some c →
      c ∈ env.conferences ∧ strLower c.acronym = strLower acronym) ∧
    (∀ l₁ c l₂, env.conferences = l₁ ++ c :: l₂ →
      (∀ c2 ∈ l₁, strLower c2.acronym ≠ strLower acronym) →
      strLower c.acronym = strLower acronym →
      get_conference_by_acronym env acronym = some c) := by
  refine ⟨?_, fun c hc => ?_, fun l₁ c l₂ hsplit hmiss hhit => ?_⟩
  · simp [get_conference_by_acronym, List.find?_eq_none]
  · exact ⟨List.mem_of_find?_eq_some hc,
      by simpa using List.find?_some hc⟩
  · rw [get_conference_by_acronym, hsplit]
    exact find?_first_of_split _ l₁ l₂ c (by simpa using hmiss) (by simpa using hhit)

/-- C9 witness: query `38C3` finds the stored `38c3` conference, skipping a
non-matching one before it. -/
theorem get_conference_by_acronym_spec_witness :
    get_conference_by_acronym
      (sampleEnv [] [mkConf "jev24", mkConf "38c3"] []) "38C3" =
      some (mkConf "38c3") :=
  (get_conference_by_acronym_spec
      (sampleEnv [] [mkConf "jev24", mkConf "38c3"] []) "38C3").2.2
    [mkConf "jev24"] (mkConf "38c3") [] rfl (by decide) (by decide)

/-- C8: with the fuzzy-matching capability unavailable,
`get_events_by_fuzzy_title` fails at first use with the distinct, labelled
`ImportError` naming `fuzzywuzzy`, for every environment and query; with it
available, it keeps exactly the events of the conference whose
case-insensitive similarity score reaches the threshold. -/
theorem get_events_by_fuzzy_title_spec (env : ApiEnv) (conference : Conference)
    (search_title : String) (threshold : Nat) :
    (∃ pre post : String,
      get_events_by_fuzzy_title env none conference search_title threshold =
        Except.error ⟨pre ++ "fuzzywuzzy" ++ post⟩) ∧
    (∀ ratio, ∃ kept : List Event,
      get_events_by_fuzzy_title env (some ratio) conference search_title threshold =
        Except.ok kept ∧
      ∀ event, event ∈ kept ↔
        event ∈ env.conferenceEvents conference.acronym ∧
        threshold ≤ ratio (strLower search_title) (strLower event.title)) := by
  constructor
  · refine ⟨"The ",
      " package is required for fuzzy title matching. Please install it with: pip install fuzzywuzzy python-Levenshtein", ?_⟩
    have h : fuzzywuzzyMissingMsg = "The " ++ "fuzzywuzzy" ++
        " package is required for fuzzy title matching. Please install it with: pip install fuzzywuzzy python-Levenshtein" := by
      decide
    calc get_events_by_fuzzy_title env none conference search_title threshold
        = Except.error ⟨fuzzywuzzyMissingMsg⟩ := rfl
      _ = _ := by rw [h]
  · intro ratio
    refine ⟨_, rfl, fun event => ?_⟩
    simp [List.mem_filter]

/-- C8 witness: with the capability absent the labelled error is returned;
with a stub scorer, an event titled `Hello World!` scoring 85 is kept and
one titled `Completely Different` scoring 10 is dropped at threshold 70. -/
theorem get_events_by_fuzzy_title_spec_witness :
    (∃ pre post : String,
      get_events_by_fuzzy_title (sampleEnv [] [] [evHello, evOther]) none
          (mkConf "38c3") "hello world" 70 =
        Except.error ⟨pre ++ "fuzzywuzzy" ++ post⟩) ∧
    (∃ kept : List Event,
      get_events_by_fuzzy_title (sampleEnv [] [] [evHello, evOther])
          (some ratioStub) (mkConf "38c3") "hello world" 70 =
        Except.ok kept ∧ evHello ∈ kept ∧ evOther ∉ kept) := by
  obtain ⟨herr, hall⟩ := get_events_by_fuzzy_title_spec
    (sampleEnv [] [] [evHello, evOther]) (mkConf "38c3") "hello world" 70
  refine ⟨herr, ?_⟩
  obtain ⟨kept, hok, hiff⟩ := hall ratioStub
  refine ⟨kept, hok, (hiff evHello).mpr ⟨by decide, by decide⟩, fun hmem => ?_⟩
  exact absurd ((hiff evOther).mp hmem).2 (by decide)

/-- C4: `get_event_audio_recording` returns absent when there is no audio
candidate for the language; the first exact `audio/opus` candidate whenever
one exists anywhere in the list; and otherwise the first audio candidate in
original order. -/
theorem get_event_audio_recording_spec (env : ApiEnv) (event : Event)
    (language : String) :
    (∀ r ∈ audioCandidates env event language,
      r.language = language ∧ strStartsWith r.mime_type "audio/" ∧
      r ∈ (get_event_recordings env event).1) ∧
    (audioCandidates env event language = [] →
      get_event_audio_recording env event language = none) ∧
    ((∃ r ∈ audioCandidates env event language, r.mime_type = "audio/opus") →
      ∃ r, get_event_audio_recording env event language = some r ∧
        (audioCandidates env event language).find?
          (fun r2 => r2.mime_type == "audio/opus") = some r ∧
        r.mime_type = "audio/opus" ∧ r ∈ audioCandidates env event language) ∧
    (audioCandidates env event language ≠ [] →
      (∀ r ∈ audioCandidates env event language, r.mime_type ≠ "audio/opus") →
      get_event_audio_recording env event language =
        (audioCandidates env event language).head?) := by
  refine ⟨fun r hr => ?_, fun hnil => ?_, fun hopus => ?_, fun hne hnone => ?_⟩
  · rw [audioCandidates, get_event_recordings_by_language] at hr
    rcases List.mem_filter.mp hr with ⟨hr2, hstart⟩
    rcases List.mem_filter.mp hr2 with ⟨hmem, hlang⟩
    exact ⟨by simpa using hlang, hstart, hmem⟩
  · simp [get_event_audio_recording, hnil]
  · obtain ⟨r0, hr0, hr0opus⟩ := hopus
    have hsome : ((audioCandidates env event language).find?
        (fun r2 => r2.mime_type == "audio/opus")).isSome := by
      rw [List.find?_isSome]
      exact ⟨r0, hr0, by simpa using hr0opus⟩
    obtain ⟨r, hr⟩ := Option.isSome_iff_exists.mp hsome
    have hne0 : audioCandidates env event language ≠ [] := by
      intro h2
      rw [h2] at hr0
      cases hr0
    have hne2 : (audioCandidates env event language).isEmpty = false := by
      simpa using hne0
    refine ⟨r, ?_, hr, by simpa using List.find?_some hr,
      List.mem_of_find?_eq_some hr⟩
    rw [get_event_audio_recording]
    simp only [hne2, Bool.false_eq_true, if_false, hr]
  · have hfnone : (audioCandidates env event language).find?
        (fun r2 => r2.mime_type == "audio/opus") = none := by
      rw [List.find?_eq_none]
      intro x hx
      simpa using hnone x hx
    have hne2 : (audioCandidates env event language).isEmpty = false := by
      simpa using hne
    rw [get_event_audio_recording]
    simp only [hne2, Bool.false_eq_true, if_false, hfnone]

/-- C4 witness: with candidates `[mpeg, opus]` the opus recording is
returned even though it is second; with only `[mpeg]` that recording is
returned. -/
theorem get_event_audio_recording_spec_witness :
    (∃ r, get_event_audio_recording (sampleEnv [] [] [])
        (mkEvent "g" "t" (some [mkRec 9 "audio/mpeg" "eng" "r" "u" "e",
                                mkRec 3 "audio/opus" "eng" "r2" "u2" "e"])) "eng" =
      some r ∧ r.mime_type = "audio/opus") ∧
    get_event_audio_recording (sampleEnv [] [] [])
        (mkEvent "g" "t" (some [mkRec 9 "audio/mpeg" "eng" "r" "u" "e"])) "eng" =
      some (mkRec 9 "audio/mpeg" "eng" "r" "u" "e") := by
  constructor
  · obtain ⟨r, hr, -, hopus, -⟩ := (get_event_audio_recording_spec
      (sampleEnv [] [] [])
      (mkEvent "g" "t" (some [mkRec 9 "audio/mpeg" "eng" "r" "u" "e",
                              mkRec 3 "audio/opus" "eng" "r2" "u2" "e"])) "eng").2.2.1
      ⟨mkRec 3 "audio/opus" "eng" "r2" "u2" "e", by decide, rfl⟩
    exact ⟨r, hr, hopus⟩
  · have h := (get_event_audio_recording_spec (sampleEnv [] [] [])
      (mkEvent "g" "t" (some [mkRec 9 "audio/mpeg" "eng" "r" "u" "e"])) "eng").2.2.2
      (by decide) (by decide)
    rw [h]
    decide

/-- Replacing an erroring probe by a 404 answer never changes the collected
subtitles. -/
theorem probeLoop_fst_congr (h1 h2 : String → Except HttpErr Nat)
    (cs : List (String × String))
    (hagree : ∀ c ∈ cs, h1 c.2 = h2 c.2 ∨
      (∃ e, h1 c.2 = Except.error e ∧ h2 c.2 = Except.ok 404)) :
    (probeLoop h1 cs).1 = (probeLoop h2 cs).1 := by
  induction cs with
  | nil => rfl
  | cons c cs ih =>
    have hrest := ih (fun c2 hc2 => hagree c2 (List.mem_cons_of_mem _ hc2))
    rcases hagree c (List.mem_cons_self _ _) with h | ⟨e, he1, he2⟩
    · rw [probeLoop, probeLoop, h]
      cases h2 c.2 with
      | ok code =>
        by_cases hcode : code = 200 <;> simp [probeStep, hcode, hrest]
      | error e => simp [probeStep, hrest]
    · rw [probeLoop, probeLoop, he1, he2]
      simp [probeStep, hrest]

/-- Every candidate whose probe answers 200 contributes its subtitle,
regardless of how the other probes behave. -/
theorem probeLoop_mem_of_ok200 (h1 : String → Except HttpErr Nat)
    (cs : List (String × String)) (c : String × String)
    (hc : c ∈ cs) (h200 : h1 c.2 = Except.ok 200) :
    (⟨c.1, c.2, none⟩ : Subtitle) ∈ (probeLoop h1 cs).1 := by
  induction cs with
  | nil => cases hc
  | cons d ds ih =>
    rcases List.mem_cons.mp hc with heq | hmem
    · subst heq
      rw [probeLoop, h200]
      simp [probeStep]
    · have hin := ih hmem
      rw [probeLoop]
      cases h1 d.2 with
      | ok code =>
        by_cases hcode : code = 200 <;> simp [probeStep, hcode, hin]
      | error e => simp [probeStep, hin]

/-- C6: in `get_recording_subtitles`, a transport failure on an individual
HEAD probe is equivalent to that probe answering a non-200 status: it is
swallowed, the scan continues over the remaining candidates, and every
candidate whose probe answers 200 still contributes its subtitle. -/
theorem get_recording_subtitles_probe_failures
    (h1 h2 : String → Except HttpErr Nat) (recording : Recording)
    (hagree : ∀ u, h1 u = h2 u ∨
      (∃ e, h1 u = Except.error e ∧ h2 u = Except.ok 404)) :
    (get_recording_subtitles h1 recording).1 =
      (get_recording_subtitles h2 recording).1 ∧
    (∀ c ∈ subtitleCandidates recording, recording.recording_url ≠ "" →
      h1 c.2 = Except.ok 200 →
      (⟨c.1, c.2, none⟩ : Subtitle) ∈ (get_recording_subtitles h1 recording).1) := by
  constructor
  · by_cases hurl : recording.recording_url = ""
    · simp [get_recording_subtitles, hurl]
    · rw [get_recording_subtitles, get_recording_subtitles, if_neg hurl, if_neg hurl]
      exact probeLoop_fst_congr h1 h2 (subtitleCandidates recording)
        (fun c _ => hagree c.2)
  · intro c hc hurl h200
    rw [get_recording_subtitles, if_neg hurl]
    exact probeLoop_mem_of_ok200 h1 (subtitleCandidates recording) c hc h200

/-- C6 witness: an oracle failing on the `deu`/srt probe produces the same
subtitles as one answering 404 there, and the `eng`/srt probe answering 200
still contributes its subtitle. -/
theorem get_recording_subtitles_probe_failures_witness :
    (get_recording_subtitles head1C6 recC6).1 =
      (get_recording_subtitles head2C6 recC6).1 ∧
    (⟨"eng", "a/G-eng.srt", none⟩ : Subtitle) ∈
      (get_recording_subtitles head1C6 recC6).1 := by
  have hagree : ∀ u, head1C6 u = head2C6 u ∨
      (∃ e, head1C6 u = Except.error e ∧ head2C6 u = Except.ok 404) := by
    intro u
    by_cases h : u = "a/G-deu.srt"
    · exact Or.inr ⟨⟨"timeout"⟩, by simp [head1C6, h], by simp [head2C6, h]⟩
    · left
      simp [head1C6, head2C6, h]
  have h := get_recording_subtitles_probe_failures head1C6 head2C6 recC6 hagree
  exact ⟨h.1, h.2 ("eng", "a/G-eng.srt") (by decide) (by decide) rfl⟩

/-- The collected subtitles form a subsequence of the candidate list's
absent-content subtitles, in candidate order. -/
theorem probeLoop_fst_sublist (h1 : String → Except HttpErr Nat)
    (cs : List (String × String)) :
    List.Sublist (probeLoop h1 cs).1
      (cs.map (fun c => (⟨c.1, c.2, none⟩ : Subtitle))) := by
  induction cs with
  | nil => simp [probeLoop]
  | cons c cs ih =>
    rw [probeLoop, List.map_cons]
    cases h1 c.2 with
    | ok code =>
      by_cases hcode : code = 200
      · simp only [probeStep, hcode, if_pos]
        exact List.Sublist.cons₂ _ ih
      · simp only [probeStep, if_neg hcode]
        exact List.Sublist.cons _ ih
    | error e =>
      simp only [probeStep]
      exact List.Sublist.cons _ ih

/-- A URL assembled as `base/guid-lang.ext` ends with `-lang.ext`. -/
theorem sEndsWith_parts (B G lang ext : String) :
    sEndsWith (B ++ "/" ++ G ++ "-" ++ lang ++ "." ++ ext)
      ("-" ++ lang ++ "." ++ ext) := by
  refine ⟨(B ++ "/" ++ G).data, ?_⟩
  simp [List.append_assoc]

/-- C10: every subtitle returned by `get_recording_subtitles` has absent
content, a language among the three active `COMMON_LANGUAGES` keys, and a
URL ending in `-{language}.srt` or `-{language}.vtt`; the result is a
subsequence of the six candidates — listed in `COMMON_LANGUAGES` key order
with the `srt` candidate before the `vtt` candidate of each language — and
so has at most 6 entries. -/
theorem get_recording_subtitles_invariants
    (headReq : String → Except HttpErr Nat) (recording : Recording) :
    (∀ s ∈ (get_recording_subtitles headReq recording).1,
      s.content = none ∧ s.language ∈ ["eng", "deu", "eng-deu"] ∧
      (sEndsWith s.url ("-" ++ s.language ++ ".srt") ∨
       sEndsWith s.url ("-" ++ s.language ++ ".vtt"))) ∧
    (get_recording_subtitles headReq recording).1.length ≤ 6 ∧
    List.Sublist (get_recording_subtitles headReq recording).1
      ((subtitleCandidates recording).map (fun c => (⟨c.1, c.2, none⟩ : Subtitle))) ∧
    (∃ u1 u2 u3 u4 u5 u6 : String,
      subtitleCandidates recording =
        [("eng", u1), ("eng", u2), ("deu", u3), ("deu", u4),
         ("eng-deu", u5), ("eng-deu", u6)] ∧
      sEndsWith u1 "-eng.srt" ∧ sEndsWith u2 "-eng.vtt" ∧
      sEndsWith u3 "-deu.srt" ∧ sEndsWith u4 "-deu.vtt" ∧
      sEndsWith u5 "-eng-deu.srt" ∧ sEndsWith u6 "-eng-deu.vtt") := by
  have hcand : subtitleCandidates recording =
      [("eng", rsplitSlashHead (subtitleBaseUrl recording) ++ "/" ++
         eventGuidOf recording ++ "-" ++ "eng" ++ "." ++ "srt"),
       ("eng", rsplitSlashHead (subtitleBaseUrl recording) ++ "/" ++
         eventGuidOf recording ++ "-" ++ "eng" ++ "." ++ "vtt"),
       ("deu", rsplitSlashHead (subtitleBaseUrl recording) ++ "/" ++
         eventGuidOf recording ++ "-" ++ "deu" ++ "." ++ "srt"),
       ("deu", rsplitSlashHead (subtitleBaseUrl recording) ++ "/" ++
         eventGuidOf recording ++ "-" ++ "deu" ++ "." ++ "vtt"),
       ("eng-deu", rsplitSlashHead (subtitleBaseUrl recording) ++ "/" ++
         eventGuidOf recording ++ "-" ++ "eng-deu" ++ "." ++ "srt"),
       ("eng-deu", rsplitSlashHead (subtitleBaseUrl recording) ++ "/" ++
         eventGuidOf recording ++ "-" ++ "eng-deu" ++ "." ++ "vtt")] := rfl
  have hsub : List.Sublist (get_recording_subtitles headReq recording).1
      ((subtitleCandidates recording).map (fun c => (⟨c.1, c.2, none⟩ : Subtitle))) := by
    by_cases hurl : recording.recording_url = ""
    · simp [get_recording_subtitles, hurl]
    · rw [get_recording_subtitles, if_neg hurl]
      exact probeLoop_fst_sublist headReq (subtitleCandidates recording)
  refine ⟨?_, ?_, hsub, ?_⟩
  · intro s hs
    have hmem := hsub.subset hs
    rw [List.mem_map] at hmem
    obtain ⟨c, hc, heq⟩ := hmem
    subst heq
    rw [hcand] at hc
    simp only [List.mem_cons, List.not_mem_nil, or_false] at hc
    rcases hc with hc | hc | hc | hc | hc | hc <;> subst hc <;>
      refine ⟨rfl, by simp, ?_⟩
    · exact Or.inl (sEndsWith_parts _ _ "eng" "srt")
    · exact Or.inr (sEndsWith_parts _ _ "eng" "vtt")
    · exact Or.inl (sEndsWith_parts _ _ "deu" "srt")
    · exact Or.inr (sEndsWith_parts _ _ "deu" "vtt")
    · exact Or.inl (sEndsWith_parts _ _ "eng-deu" "srt")
    · exact Or.inr (sEndsWith_parts _ _ "eng-deu" "vtt")
  · calc (get_recording_subtitles headReq recording).1.length
        ≤ ((subtitleCandidates recording).map
            (fun c => (⟨c.1, c.2, none⟩ : Subtitle))).length := hsub.length_le
      _ = 6 := by rw [List.length_map, hcand]; rfl
  · exact ⟨_, _, _, _, _, _, hcand,
      sEndsWith_parts _ _ "eng" "srt", sEndsWith_parts _ _ "eng" "vtt",
      sEndsWith_parts _ _ "deu" "srt", sEndsWith_parts _ _ "deu" "vtt",
      sEndsWith_parts _ _ "eng-deu" "srt", sEndsWith_parts _ _ "eng-deu" "vtt"⟩

/-- C10 witness: the `eng`/srt subtitle collected for the fixture recording
satisfies the per-element invariant, and the full all-200 result has at
most 6 entries. -/
theorem get_recording_subtitles_invariants_witness :
    ((⟨"eng", "a/G-eng.srt", none⟩ : Subtitle).content = none ∧
     (⟨"eng", "a/G-eng.srt", none⟩ : Subtitle).language ∈ ["eng", "deu", "eng-deu"] ∧
     (sEndsWith (⟨"eng", "a/G-eng.srt", none⟩ : Subtitle).url
        ("-" ++ (⟨"eng", "a/G-eng.srt", none⟩ : Subtitle).language ++ ".srt") ∨
      sEndsWith (⟨"eng", "a/G-eng.srt", none⟩ : Subtitle).url
        ("-" ++ (⟨"eng", "a/G-eng.srt", none⟩ : Subtitle).language ++ ".vtt"))) ∧
    (get_recording_subtitles (fun _ => Except.ok 200) recC6).1.length ≤ 6 := by
  have h := get_recording_subtitles_invariants (fun _ => Except.ok 200) recC6
  exact ⟨h.1 ⟨"eng", "a/G-eng.srt", none⟩ (by decide), h.2.1⟩

/-- On an input of the pattern form, the end-anchored pattern matches and
captures exactly the digit run. -/
theorem matchDigitsAtEnd_of_pattern (p d : List Char) (hd : d ≠ [])
    (hdig : ∀ c ∈ d, c.isDigit) :
    matchDigitsAtEnd (p ++ recSegment ++ d) = some d := by
  have hall : ∀ a ∈ d.reverse, a.isDigit := by
    intro a ha
    rw [List.mem_reverse] at ha
    exact hdig a ha
  have htd : trailingDigits (p ++ recSegment ++ d) = d := by
    rw [trailingDigits, show (p ++ recSegment ++ d).reverse =
        d.reverse ++ (recSegment.reverse ++ p.reverse) by simp,
      List.takeWhile_append_of_pos hall,
      show recSegment.reverse ++ p.reverse =
        '/' :: ("sgnidrocer/".data ++ p.reverse) from rfl,
      List.takeWhile_cons_of_neg (by decide)]
    simp
  have hrest : (p ++ recSegment ++ d).take ((p ++ recSegment ++ d).length - d.length) =
      p ++ recSegment := by
    rw [show (p ++ recSegment ++ d).length - d.length = (p ++ recSegment).length by
      simp only [List.length_append]
      omega]
    exact List.take_left _ _
  have hends : listEndsWith (p ++ recSegment) recSegment = true := by
    rw [listEndsWith]
    apply decide_eq_true
    rw [show (p ++ recSegment).length - recSegment.length = p.length by
      simp only [List.length_append]
      omega, List.drop_left]
  have hne : d.isEmpty = false := by simpa using hd
  simp only [matchDigitsAtEnd]
  rw [htd, hrest, hends, hne]
  simp

/-- A successful end-anchored match only arises from the trailing pattern:
the result is a non-empty digit run and the list decomposes around
`/recordings/`. -/
theorem matchDigitsAtEnd_some_implies (cs ds : List Char)
    (h : matchDigitsAtEnd cs = some ds) :
    ds ≠ [] ∧ (∀ c ∈ ds, c.isDigit) ∧
      ∃ p : List Char, cs = p ++ recSegment ++ ds := by
  simp only [matchDigitsAtEnd] at h
  by_cases h1 : (trailingDigits cs).isEmpty
  · rw [if_pos h1] at h
    cases h
  · rw [if_neg h1] at h
    by_cases h2 : listEndsWith
        (cs.take (cs.length - (trailingDigits cs).length)) recSegment
    · rw [if_pos h2] at h
      have hds : trailingDigits cs = ds := Option.some.inj h
      have hdig : ∀ c ∈ ds, c.isDigit := by
        intro c hc
        rw [← hds, trailingDigits, List.mem_reverse] at hc
        exact List.all_eq_true.mp (List.all_takeWhile) c hc
      have hsplit : cs = (List.dropWhile Char.isDigit cs.reverse).reverse ++ ds := by
        rw [← hds, trailingDigits]
        conv_lhs => rw [← cs.reverse_reverse,
          ← List.takeWhile_append_dropWhile (p := Char.isDigit) (l := cs.reverse)]
        rw [List.reverse_append]
      have hrest : cs.take (cs.length - (trailingDigits cs).length) =
          (List.dropWhile Char.isDigit cs.reverse).reverse := by
        rw [hds]
        conv_lhs => rw [hsplit]
        rw [show ((List.dropWhile Char.isDigit cs.reverse).reverse ++ ds).length -
            ds.length = (List.dropWhile Char.isDigit cs.reverse).reverse.length by
          simp only [List.length_append]
          omega]
        exact List.take_left _ _
      rw [hrest] at h2
      have hdrop : (List.dropWhile Char.isDigit cs.reverse).reverse.drop
          ((List.dropWhile Char.isDigit cs.reverse).reverse.length -
            recSegment.length) = recSegment := of_decide_eq_true h2
      have htdec : (List.dropWhile Char.isDigit cs.reverse).reverse =
          (List.dropWhile Char.isDigit cs.reverse).reverse.take
            ((List.dropWhile Char.isDigit cs.reverse).reverse.length -
              recSegment.length) ++ recSegment := by
        conv_lhs => rw [← List.take_append_drop
          ((List.dropWhile Char.isDigit cs.reverse).reverse.length -
            recSegment.length) (List.dropWhile Char.isDigit cs.reverse).reverse]
        rw [hdrop]
      have hfinal : cs =
          (List.dropWhile Char.isDigit cs.reverse).reverse.take
            ((List.dropWhile Char.isDigit cs.reverse).reverse.length -
              recSegment.length) ++ recSegment ++ ds := by
        calc cs
            = (List.dropWhile Char.isDigit cs.reverse).reverse ++ ds := hsplit
          _ = ((List.dropWhile Char.isDigit cs.reverse).reverse.take
                ((List.dropWhile Char.isDigit cs.reverse).reverse.length -
                  recSegment.length) ++ recSegment) ++ ds := by
              conv_lhs => rw [htdec]
      refine ⟨?_, hdig, ?_⟩
      · rw [← hds]
        simpa using h1
      · exact ⟨(List.dropWhile Char.isDigit cs.reverse).reverse.take
          ((List.dropWhile Char.isDigit cs.reverse).reverse.length -
            recSegment.length), hfinal⟩
    · rw [if_neg h2] at h
      cases h

/-- The anchor adjustment strips exactly one trailing newline. -/
theorem dollarTarget_concat_newline (cs : List Char) :
    dollarTarget (cs ++ ['\n']) = cs := by
  rw [dollarTarget, if_pos (List.getLast?_concat cs), List.dropLast_concat]

/-- The anchor adjustment is the identity when the list does not end with a
newline. -/
theorem dollarTarget_of_no_newline (cs : List Char)
    (h : cs.getLast? ≠ some '\n') : dollarTarget cs = cs := by
  rw [dollarTarget, if_neg h]

/-- C2 counterexample: the claim says the result is absent for any input
that does not end with `.../recordings/<digits>`; but Python's `$` also
matches just before one trailing newline, so on `"x/recordings/5\n"` —
which does not end with the pattern — the code returns `"5"`, not absent. -/
theorem extract_recording_id_counterexample :
    extract_recording_id "x/recordings/5\n" = some (String.mk ['5']) ∧
    ¬ ∃ p d : List Char, d ≠ [] ∧ (∀ c ∈ d, c.isDigit) ∧
      ("x/recordings/5\n" : String).data = p ++ recSegment ++ d := by
  refine ⟨by decide, ?_⟩
  rintro ⟨p, d, hne, hdig, heq⟩
  obtain ⟨a, ha⟩ := Option.isSome_iff_exists.mp (List.getLast?_isSome.mpr hne)
  have hlast : ("x/recordings/5\n" : String).data.getLast? = some '\n' := by decide
  rw [heq, show p ++ recSegment ++ d = (p ++ recSegment) ++ d from rfl,
    List.getLast?_append, ha, Option.or_some, Option.some.injEq] at hlast
  have hadig := hdig a (List.mem_of_getLast?_eq_some ha)
  rw [hlast] at hadig
  exact absurd hadig (by decide)

/-- C2 (amended): `extract_recording_id` is a pure total function on
strings; it returns exactly the digit run when the input ends with
`.../recordings/<digits>` or with that pattern followed by a single
trailing newline (Python's `$` anchor matches there too), and a successful
result only arises in one of those two ways — any other input yields
absent. -/
theorem extract_recording_id_spec (url : String) :
    (∀ p d : List Char, d ≠ [] → (∀ c ∈ d, c.isDigit) →
      (url.data = p ++ recSegment ++ d ∨
       url.data = p ++ recSegment ++ d ++ ['\n']) →
      extract_recording_id url = some (String.mk d)) ∧
    (∀ r : String, extract_recording_id url = some r →
      r.data ≠ [] ∧ (∀ c ∈ r.data, c.isDigit) ∧
      ∃ p : List Char, url.data = p ++ recSegment ++ r.data ∨
        url.data = p ++ recSegment ++ r.data ++ ['\n']) := by
  constructor
  · intro p d hd hdig hurl
    have hmatch : dollarTarget url.data = p ++ recSegment ++ d := by
      rcases hurl with hurl | hurl
      · rw [hurl]
        apply dollarTarget_of_no_newline
        obtain ⟨a, ha⟩ := Option.isSome_iff_exists.mp (List.getLast?_isSome.mpr hd)
        rw [show p ++ recSegment ++ d = (p ++ recSegment) ++ d from rfl,
          List.getLast?_append, ha, Option.or_some]
        intro hcontra
        rw [Option.some.injEq] at hcontra
        have hadig := hdig a (List.mem_of_getLast?_eq_some ha)
        rw [hcontra] at hadig
        exact absurd hadig (by decide)
      · rw [hurl, show p ++ recSegment ++ d ++ ['\n'] =
          (p ++ recSegment ++ d) ++ ['\n'] from rfl, dollarTarget_concat_newline]
    rw [extract_recording_id, hmatch, matchDigitsAtEnd_of_pattern p d hd hdig]
    rfl
  · intro r hr
    rw [extract_recording_id] at hr
    cases hm : matchDigitsAtEnd (dollarTarget url.data) with
    | none =>
      rw [hm] at hr
      cases hr
    | some ds =>
      rw [hm, Option.map_some'] at hr
      have hrds : r = String.mk ds := (Option.some.inj hr).symm
      subst hrds
      obtain ⟨hne, hdig, p, hsplit⟩ := matchDigitsAtEnd_some_implies _ ds hm
      by_cases hnl : url.data.getLast? = some '\n'
      · obtain ⟨ys, hys⟩ := List.getLast?_eq_some_iff.mp hnl
        have hdt : dollarTarget url.data = ys := by
          rw [hys, dollarTarget_concat_newline]
        rw [hdt] at hsplit
        refine ⟨hne, hdig, p, Or.inr ?_⟩
        rw [hys, hsplit]
      · have hdt := dollarTarget_of_no_newline url.data hnl
        rw [hdt] at hsplit
        exact ⟨hne, hdig, p, Or.inl hsplit⟩

/-- C2 witness: a plain recording URL yields its digit run; one followed by
a single trailing newline also yields the run; and a successful extraction
exhibits one of the two decompositions. -/
theorem extract_recording_id_spec_witness :
    extract_recording_id "https://api.media.ccc.de/public/recordings/12345" =
      some (String.mk ['1', '2', '3', '4', '5']) ∧
    extract_recording_id "x/recordings/77\n" = some (String.mk ['7', '7']) ∧
    (∃ p : List Char, ("https://x/recordings/77" : String).data =
        p ++ recSegment ++ ("77" : String).data ∨
      ("https://x/recordings/77" : String).data =
        p ++ recSegment ++ ("77" : String).data ++ ['\n']) := by
  refine ⟨(extract_recording_id_spec "https://api.media.ccc.de/public/recordings/12345").1
      "https://api.media.ccc.de/public".data ['1', '2', '3', '4', '5']
      (by decide) (by decide) (Or.inl (by decide)),
    (extract_recording_id_spec "x/recordings/77\n").1 "x".data ['7', '7']
      (by decide) (by decide) (Or.inr (by decide)), ?_⟩
  exact ((extract_recording_id_spec "https://x/recordings/77").2 "77" (by decide)).2.2

/-- `find?` is the head of `filter`. -/
theorem find?_eq_filter_head? {α} (p : α → Bool) (l : List α) :
    l.find? p = (l.filter p).head? := by
  induction l with
  | nil => rfl
  | cons a l ih =>
    by_cases h : p a
    · rw [List.find?_cons_of_pos _ h, List.filter_cons_of_pos h]
      rfl
    · rw [List.find?_cons_of_neg _ h, List.filter_cons_of_neg h, ih]

/-- A successful `find?` splits the list at the first hit. -/
theorem find?_split {α} (p : α → Bool) :
    ∀ (l : List α) (a : α), l.find? p = some a →
      ∃ l1 l2, l = l1 ++ a :: l2 ∧ ∀ x ∈ l1, ¬ p x := by
  intro l
  induction l with
  | nil =>
    intro a h
    cases h
  | cons b t ih =>
    intro a h
    by_cases hb : p b
    · rw [List.find?_cons_of_pos _ hb] at h
      cases h
      exact ⟨[], t, rfl, by simp⟩
    · rw [List.find?_cons_of_neg _ hb] at h
      obtain ⟨l1, l2, heq, hl1⟩ := ih a h
      refine ⟨b :: l1, l2, by rw [heq, List.cons_append], ?_⟩
      intro x hx
      rcases List.mem_cons.mp hx with rfl | hx2
      · exact hb
      · exact hl1 x hx2

/-- A non-empty list of recordings has a size-maximal element. -/
theorem exists_first_max (l : List Recording) (hne : l ≠ []) :
    ∃ r, r ∈ l ∧ ∀ x ∈ l, x.size ≤ r.size := by
  induction l with
  | nil => exact absurd rfl hne
  | cons a t ih =>
    cases t with
    | nil =>
      refine ⟨a, List.mem_cons_self _ _, ?_⟩
      intro x hx
      rcases List.mem_cons.mp hx with rfl | hx2
      · exact Nat.le_refl _
      · cases hx2
    | cons b u =>
      obtain ⟨m, hm, hmax⟩ := ih (by simp)
      by_cases hcmp : m.size ≤ a.size
      · refine ⟨a, List.mem_cons_self _ _, ?_⟩
        intro x hx
        rcases List.mem_cons.mp hx with rfl | hx2
        · exact Nat.le_refl _
        · exact Nat.le_trans (hmax x hx2) hcmp
      · refine ⟨m, List.mem_cons_of_mem _ hm, ?_⟩
        intro x hx
        rcases List.mem_cons.mp hx with rfl | hx2
        · omega
        · exact hmax x hx2

/-- The head of Python's stable descending sort by size is the first
recording of maximal size, by the sort's permutation, sortedness and
stability properties. -/
theorem head?_sortBySizeDesc (recordings : List Recording) :
    (sortBySizeDesc recordings).head? = firstMaxBySize recordings := by
  have htrans : ∀ a b c : Recording, decide (b.size ≤ a.size) = true →
      decide (c.size ≤ b.size) = true → decide (c.size ≤ a.size) = true := by
    intro a b c h1 h2
    rw [decide_eq_true_eq] at *
    omega
  have htotal : ∀ a b : Recording,
      (decide (b.size ≤ a.size) || decide (a.size ≤ b.size)) = true := by
    intro a b
    rcases Nat.le_total b.size a.size with h | h <;> simp [h]
  cases hms : sortBySizeDesc recordings with
  | nil =>
    have hperm := List.mergeSort_perm recordings
      (fun a b : Recording => decide (b.size ≤ a.size))
    rw [show List.mergeSort recordings
        (fun a b : Recording => decide (b.size ≤ a.size)) =
      sortBySizeDesc recordings from rfl, hms] at hperm
    have hnil : recordings = [] := List.Perm.eq_nil hperm.symm
    rw [hnil]
    rfl
  | cons b0 t0 =>
    rw [sortBySizeDesc] at hms
    have hperm := List.mergeSort_perm recordings
      (fun a b : Recording => decide (b.size ≤ a.size))
    rw [hms] at hperm
    have hsorted := List.sorted_mergeSort htrans htotal recordings
    rw [hms] at hsorted
    have hmax : ∀ x ∈ recordings, x.size ≤ b0.size := by
      intro x hx
      have hx2 : x ∈ b0 :: t0 := hperm.symm.subset hx
      rcases List.mem_cons.mp hx2 with rfl | hx3
      · exact Nat.le_refl _
      · have := (List.pairwise_cons.mp hsorted).1 x hx3
        simpa using this
    have hb0p : isMaxSizeIn recordings b0 = true := by
      rw [isMaxSizeIn, List.all_eq_true]
      intro x hx
      simpa using hmax x hx
    have hcpair : (recordings.filter (isMaxSizeIn recordings)).Pairwise
        (fun a b : Recording => decide (b.size ≤ a.size) = true) := by
      apply List.pairwise_of_forall_mem_list
      intro x hx y hy
      have hymem := List.mem_of_mem_filter hy
      have hxmax : isMaxSizeIn recordings x = true := List.of_mem_filter hx
      rw [isMaxSizeIn, List.all_eq_true] at hxmax
      have := hxmax y hymem
      simpa using this
    have hstable := List.sublist_mergeSort htrans htotal hcpair
      (List.filter_sublist recordings)
    rw [hms] at hstable
    have hpermfil : List.Perm ((b0 :: t0).filter (isMaxSizeIn recordings))
        (recordings.filter (isMaxSizeIn recordings)) :=
      hperm.filter (isMaxSizeIn recordings)
    have hsubfil : List.Sublist (recordings.filter (isMaxSizeIn recordings))
        ((b0 :: t0).filter (isMaxSizeIn recordings)) := by
      have h1 := hstable.filter (isMaxSizeIn recordings)
      rwa [List.filter_eq_self.mpr (fun a ha => List.of_mem_filter ha)] at h1
    have hceq : recordings.filter (isMaxSizeIn recordings) =
        (b0 :: t0).filter (isMaxSizeIn recordings) :=
      hsubfil.eq_of_length hpermfil.length_eq.symm
    rw [firstMaxBySize, find?_eq_filter_head?, hceq,
      List.filter_cons_of_pos hb0p]
    rfl

/-- C3: among the format-filtered recordings, `get_event_best_recording`
returns a recording of maximum `size`, breaking size ties in favour of the
earliest recording in the original list order (Python's stable sort by size
descending, element 0); it is absent exactly when no recording matches the
mime type. -/
theorem get_event_best_recording_spec (env : ApiEnv) (event : Event)
    (mime_type : String) :
    (get_event_recordings_by_format env event mime_type = [] →
      get_event_best_recording env event mime_type = none) ∧
    (get_event_recordings_by_format env event mime_type ≠ [] →
      ∃ r l1 l2, get_event_best_recording env event mime_type = some r ∧
        get_event_recordings_by_format env event mime_type = l1 ++ r :: l2 ∧
        (∀ x ∈ get_event_recordings_by_format env event mime_type,
          x.size ≤ r.size) ∧
        (∀ x ∈ l1, x.size < r.size)) := by
  constructor
  · intro hnil
    simp only [get_event_best_recording, hnil]
    rfl
  · intro hne
    obtain ⟨m, hm, hmax⟩ := exists_first_max _ hne
    have hiss : ((get_event_recordings_by_format env event mime_type).find?
        (isMaxSizeIn (get_event_recordings_by_format env event mime_type))).isSome := by
      rw [List.find?_isSome]
      refine ⟨m, hm, ?_⟩
      rw [isMaxSizeIn, List.all_eq_true]
      intro x hx
      simpa using hmax x hx
    obtain ⟨r, hr⟩ := Option.isSome_iff_exists.mp hiss
    obtain ⟨l1, l2, hsplit, hl1⟩ := find?_split _ _ _ hr
    have hrp := List.find?_some hr
    rw [isMaxSizeIn, List.all_eq_true] at hrp
    have hrmax : ∀ x ∈ get_event_recordings_by_format env event mime_type,
        x.size ≤ r.size := by
      intro x hx
      simpa using hrp x hx
    have hbest : get_event_best_recording env event mime_type = some r := by
      have hisE : (get_event_recordings_by_format env event mime_type).isEmpty
          = false := by
        simpa using hne
      simp only [get_event_best_recording, hisE, Bool.false_eq_true, if_false]
      rw [head?_sortBySizeDesc, firstMaxBySize, hr]
    refine ⟨r, l1, l2, hbest, hsplit, hrmax, ?_⟩
    intro x hx1
    have hnotp := hl1 x hx1
    rw [isMaxSizeIn, List.all_eq_true] at hnotp
    push_neg at hnotp
    obtain ⟨y, hy, hylt⟩ := hnotp
    have hxy : x.size < y.size := by simpa using hylt
    exact Nat.lt_of_lt_of_le hxy (hrmax y hy)

/-- C3 witness: an event whose format-filtered list is empty yields absent;
with recordings of sizes 100, 500 and 300 (all `video/mp4`) a best
recording exists, dominates all sizes and splits the list with strictly
smaller sizes before it — and it evaluates to the size-500 record. -/
theorem get_event_best_recording_spec_witness :
    get_event_best_recording (sampleEnv [] [] [])
      (mkEvent "g0" "t0" (some [])) "video/mp4" = none ∧
    (∃ r l1 l2,
      get_event_best_recording (sampleEnv [] [] [])
        (mkEvent "g" "t" (some [mkRec 100 "video/mp4" "eng" "r" "u" "e",
          mkRec 500 "video/mp4" "eng" "r" "u" "e",
          mkRec 300 "video/mp4" "eng" "r" "u" "e"])) "video/mp4" = some r ∧
      get_event_recordings_by_format (sampleEnv [] [] [])
        (mkEvent "g" "t" (some [mkRec 100 "video/mp4" "eng" "r" "u" "e",
          mkRec 500 "video/mp4" "eng" "r" "u" "e",
          mkRec 300 "video/mp4" "eng" "r" "u" "e"])) "video/mp4" = l1 ++ r :: l2 ∧
      (∀ x ∈ get_event_recordings_by_format (sampleEnv [] [] [])
        (mkEvent "g" "t" (some [mkRec 100 "video/mp4" "eng" "r" "u" "e",
          mkRec 500 "video/mp4" "eng" "r" "u" "e",
          mkRec 300 "video/mp4" "eng" "r" "u" "e"])) "video/mp4",
        x.size ≤ r.size) ∧
      (∀ x ∈ l1, x.size < r.size)) ∧
    get_event_best_recording (sampleEnv [] [] [])
      (mkEvent "g" "t" (some [mkRec 100 "video/mp4" "eng" "r" "u" "e",
        mkRec 500 "video/mp4" "eng" "r" "u" "e",
        mkRec 300 "video/mp4" "eng" "r" "u" "e"])) "video/mp4" =
      some (mkRec 500 "video/mp4" "eng" "r" "u" "e") := by
  have hpart2 := (get_event_best_recording_spec (sampleEnv [] [] [])
      (mkEvent "g" "t" (some [mkRec 100 "video/mp4" "eng" "r" "u" "e",
        mkRec 500 "video/mp4" "eng" "r" "u" "e",
        mkRec 300 "video/mp4" "eng" "r" "u" "e"])) "video/mp4").2 (by decide)
  refine ⟨(get_event_best_recording_spec (sampleEnv [] [] [])
      (mkEvent "g0" "t0" (some [])) "video/mp4").1 (by decide), hpart2, ?_⟩
  obtain ⟨r, l1, l2, hbest, hsplit, hmax, -⟩ := hpart2
  have hlist : get_event_recordings_by_format (sampleEnv [] [] [])
      (mkEvent "g" "t" (some [mkRec 100 "video/mp4" "eng" "r" "u" "e",
        mkRec 500 "video/mp4" "eng" "r" "u" "e",
        mkRec 300 "video/mp4" "eng" "r" "u" "e"])) "video/mp4" =
      [mkRec 100 "video/mp4" "eng" "r" "u" "e",
        mkRec 500 "video/mp4" "eng" "r" "u" "e",
        mkRec 300 "video/mp4" "eng" "r" "u" "e"] := by decide
  have hrmem : r ∈ [mkRec 100 "video/mp4" "eng" "r" "u" "e",
      mkRec 500 "video/mp4" "eng" "r" "u" "e",
      mkRec 300 "video/mp4" "eng" "r" "u" "e"] := by
    rw [← hlist, hsplit]
    exact List.mem_append.mpr (Or.inr (List.mem_cons_self _ _))
  have h500 := hmax (mkRec 500 "video/mp4" "eng" "r" "u" "e")
    (by rw [hlist]; decide)
  have hr : r = mkRec 500 "video/mp4" "eng" "r" "u" "e" := by
    rcases List.mem_cons.mp hrmem with h1 | hrmem2
    · subst h1
      exact absurd h500 (by decide)
    rcases List.mem_cons.mp hrmem2 with h2 | hrmem3
    · exact h2
    rcases List.mem_cons.mp hrmem3 with h3 | hrmem4
    · subst h3
      exact absurd h500 (by decide)
    · cases hrmem4
  rw [hr] at hbest
  exact hbest
